import Mathlib

/-!
Shallow embedding of the icrc7 NFT ledger canister
(src/icrc7/src/state.rs, src/icrc7/src/update.rs, src/icrc7/src/lib.rs).

Modelling conventions: principals, 32-byte subaccounts and byte payloads
are abstracted to Nat; u64 time arithmetic wraps modulo 2^64 where the
source can overflow (release-mode semantics of the deployed wasm build).
HashMap is modelled as an association list, HashSet as a list compared
with set-valued equality, BTreeMap as an association list kept sorted by
key.  A Rust panic (which traps the canister call) is modelled by an
operation returning none.  The host clock ic::time() and the trusted
caller identity are passed as explicit arguments.
-/

namespace Icrc7

abbrev Principal := Nat
abbrev Subaccount := Nat
abbrev TokenID := Nat
abbrev ApprovalID := Nat
abbrev TransferID := Nat

/-- The value Principal::anonymous() abstracts to 0. -/
def anonymousPrincipal : Principal := 0

/-- The modulus 2^64 of u64 arithmetic. -/
def U64 : Nat := 18446744073709551616

/-- Wrapping u64 addition. -/
def wadd (a b : Nat) : Nat := (a + b) % U64

/-- Wrapping u64 subtraction, for b at most 2^64. -/
def wsub (a b : Nat) : Nat := (a + U64 - b) % U64

/-- Account from state.rs lines 11-15: owner principal plus optional subaccount. -/
structure Account where
  owner : Principal
  subaccount : Option Subaccount
deriving DecidableEq

/-- Canonicalization from state.rs lines 41-46: a missing subaccount is
replaced by the all-zero subaccount (abstracted to 0). -/
def Account.to_canonical (a : Account) : Account :=
  { owner := a.owner, subaccount := some (a.subaccount.getD 0) }

/-- Account::from_owner from state.rs lines 31-37. -/
def Account.from_owner (p : Principal) : Account :=
  (Account.mk p none).to_canonical

/-- Token record from state.rs lines 95-101. -/
structure Token where
  id : TokenID
  name : String
  image : List Nat
  owner : Account
deriving DecidableEq

/-- Transfer record from state.rs lines 76-83. -/
structure Transfer where
  fromAcc : Account
  toAcc : Account
  token_ids : List TokenID
  memo : Option (List Nat)
  created_at : Nat
deriving DecidableEq

/-- Approval record from state.rs lines 85-93. -/
structure Approval where
  fromP : Principal
  from_subaccount : Option Subaccount
  toP : Principal
  token_ids : Option (List TokenID)
  expires_at : Option Nat
  memo : Option (List Nat)
deriving DecidableEq

/-- Collection aggregate from state.rs lines 52-74. -/
structure Collection where
  name : String
  symbol : String
  royalties : Nat
  royalty_recipient : Account
  description : Option String
  image : Option (List Nat)
  supply_cap : Option Nat
  authority : Option Principal
  tokens : List (TokenID × Token)
  approval_id_seq : ApprovalID
  approvals : List (ApprovalID × Approval)
  approvals_by_principal : List (Principal × List ApprovalID)
  transfer_id_seq : TransferID
  transfers : List ((Nat × TransferID) × Transfer)
deriving DecidableEq

/-- Association-list lookup, modelling HashMap::get. -/
def listGet {α β : Type} [DecidableEq α] : List (α × β) → α → Option β
  | [], _ => none
  | (k, v) :: rest, key => if k = key then some v else listGet rest key

/-- Association-list insert-or-replace, modelling HashMap::insert. -/
def listInsert {α β : Type} [DecidableEq α] : List (α × β) → α → β → List (α × β)
  | [], key, v => [(key, v)]
  | (k, w) :: rest, key, v =>
    if k = key then (key, v) :: rest else (k, w) :: listInsert rest key v

/-- Strict lexicographic order on BTreeMap keys (created_at, transfer id). -/
def keyLt (a b : Nat × Nat) : Bool :=
  decide (a.1 < b.1) || (decide (a.1 = b.1) && decide (a.2 < b.2))

/-- Ordered insert into the transfers BTreeMap, replacing an equal key. -/
def btreeInsert : List ((Nat × TransferID) × Transfer) → (Nat × TransferID) → Transfer →
    List ((Nat × TransferID) × Transfer)
  | [], k, v => [(k, v)]
  | (k0, v0) :: rest, k, v =>
    if k = k0 then (k, v) :: rest
    else if keyLt k k0 then (k, v) :: (k0, v0) :: rest
    else (k0, v0) :: btreeInsert rest k v

/-- Retention window from state.rs line 104: 24h in nanoseconds. -/
def TX_DEDUPLICATION_WINDOW : Nat := 86400000000000

/-- Permitted clock drift from update.rs line 82: 2 minutes in nanoseconds. -/
def PERMITTED_TIME_DRIFT : Nat := 120000000000

/-- The value usize::MAX of the wasm32 canister target. -/
def USIZE_MAX : Nat := 4294967295

/-- Collection::add_token from state.rs lines 107-109. -/
def Collection.add_token (c : Collection) (t : Token) : Collection :=
  { c with tokens := listInsert c.tokens t.id t }

/-- Collection::add_approval from state.rs lines 111-124: assigns the next
approval id, stores the approval and appends the id to the owner index. -/
def Collection.add_approval (c : Collection) (a : Approval) : ApprovalID × Collection :=
  let id := c.approval_id_seq
  let cur := (listGet c.approvals_by_principal a.fromP).getD []
  (id, { c with
    approval_id_seq := id + 1,
    approvals := listInsert c.approvals id a,
    approvals_by_principal := listInsert c.approvals_by_principal a.fromP (cur ++ [id]) })

/-- Collection::find_approval_for_delegate from state.rs lines 128-167.
Every arm of the source loop body returns from the function, so only the
head of the owner index list is ever inspected; the embedding mirrors
that.  The host clock read ic::time() on line 151 is the argument now. -/
def Collection.find_approval_for_delegate (c : Collection) (from_acc : Account)
    (delegate : Principal) (token_id : TokenID) (now : Nat) : Option ApprovalID :=
  match listGet c.approvals_by_principal from_acc.owner with
  | none => none
  | some approvals =>
    match approvals with
    | [] => none
    | approval_id :: _ =>
      match listGet c.approvals approval_id with
      | none => none
      | some approval =>
        if approval.toP ≠ delegate then none
        else if approval.token_ids.isSome ∧
            (approval.token_ids.getD []).contains token_id = false then none
        else if approval.expires_at.isSome ∧ approval.expires_at.getD 0 < now then none
        else if approval.from_subaccount.isSome ∧
            from_acc.subaccount.getD 0 ≠ approval.from_subaccount.getD 0 then none
        else some approval_id

/-- Collection::add_transfer from state.rs lines 169-177. -/
def Collection.add_transfer (c : Collection) (t : Transfer) : TransferID × Collection :=
  let id := c.transfer_id_seq
  (id, { c with
    transfer_id_seq := id + 1,
    transfers := btreeInsert c.transfers (t.created_at, id) t })

/-- HashSet equality of token-id sets: same elements, order ignored. -/
def eqSet (a b : List TokenID) : Bool :=
  a.all (fun x => b.contains x) && b.all (fun x => a.contains x)

/-- Field comparison from state.rs lines 189-192: two transfers match when
from, to, token-id set and memo coincide. -/
def transferMatches (tr t : Transfer) : Bool :=
  decide (tr.fromAcc = t.fromAcc) && decide (tr.toAcc = t.toAcc) &&
    eqSet tr.token_ids t.token_ids && decide (tr.memo = t.memo)

/-- Scan of the range of entries sharing created_at, state.rs lines 183-196. -/
def fdtGo (t : Transfer) : List ((Nat × TransferID) × Transfer) → Option TransferID
  | [] => none
  | ((ca, id), tr) :: rest =>
    if decide (ca = t.created_at) && transferMatches tr t then some id else fdtGo t rest

/-- Collection::find_duplicate_transfer from state.rs lines 179-199. -/
def Collection.find_duplicate_transfer (c : Collection) (t : Transfer) : Option TransferID :=
  fdtGo t c.transfers

/-- Collection::gc from state.rs lines 202-223.  The u64 subtraction
now - TX_DEDUPLICATION_WINDOW on line 204 wraps in the release build,
modelled by wsub.  split_off keeps exactly the keys at least the split
key; since the split key has second component 0 this is a filter on the
created_at component.  Approvals are retained unless their expiry is set
and below now, and the owner index is then filtered against the
surviving approvals, dropping empty entries. -/
def Collection.gc (c : Collection) (now : Nat) : Collection :=
  let splitKey := wsub now TX_DEDUPLICATION_WINDOW
  let transfersAfter := c.transfers.filter (fun kv => decide (splitKey ≤ kv.1.1))
  let approvalsAfter := c.approvals.filter
    (fun kv => !(kv.2.expires_at.isSome && decide (kv.2.expires_at.getD 0 < now)))
  let abpAfter := (c.approvals_by_principal.map
      (fun kv => (kv.1, kv.2.filter (fun id => (listGet approvalsAfter id).isSome)))).filter
    (fun kv => !(kv.2.isEmpty))
  { c with
    transfers := transfersAfter,
    approvals := approvalsAfter,
    approvals_by_principal := abpAfter }

/-- Arguments of mint_token, update.rs lines 12-21.  The base64 image
payload is decoded by an external codec (spec section 1 treats it as an
external collaborator); the embedding receives the decode result as the
explicit argument decoded. -/
structure MintTokenArgs where
  id : TokenID
  name : String
  owner : Account
deriving DecidableEq

/-- mint_token from update.rs lines 24-62. -/
def mint_token (c : Collection) (args : MintTokenArgs) (caller : Principal)
    (decoded : Option (List Nat)) : Except String TokenID × Collection :=
  match c.authority with
  | none => (.error "can\x27t mint because authority is not set", c)
  | some auth =>
    if auth ≠ caller then (.error "caller is not authority", c)
    else if c.tokens.length = c.supply_cap.getD USIZE_MAX then
      (.error "supply cap reached", c)
    else if (listGet c.tokens args.id).isSome then
      (.error "token with this ID already exists", c)
    else match decoded with
      | none => (.error "failed to decode base64 image", c)
      | some image =>
        (.ok args.id,
          c.add_token { id := args.id, name := args.name, image := image,
                        owner := args.owner.to_canonical })

/-- Arguments of icrc7_approve, update.rs lines 65-72. -/
structure ApproveArgs where
  from_subaccount : Option Subaccount
  toP : Principal
  token_ids : Option (List TokenID)
  expires_at : Option Nat
  memo : Option (List Nat)
  created_at : Option Nat
deriving DecidableEq

/-- Approval error taxonomy from update.rs lines 75-80 (source name kept,
including the spelling). -/
inductive AppprovalError where
  | Unauthorized (ids : List TokenID)
  | TooOld
  | TemporarilyUnavailable
  | GenericError (error_code : Nat) (message : String)
deriving DecidableEq

/-- The created_at drift check of update.rs lines 107-112; the u64
addition wraps in the release build. -/
def approveTooOld (args : ApproveArgs) (now : Nat) : Bool :=
  match args.created_at with
  | some created_at => decide (now > wadd created_at PERMITTED_TIME_DRIFT)
  | none => false

/-- Tail of icrc7_approve after the ownership check, update.rs lines 107-125. -/
def approveCommit (c : Collection) (args : ApproveArgs) (caller : Principal) (now : Nat) :
    Except AppprovalError ApprovalID × Collection :=
  if approveTooOld args now then (.error .TooOld, c)
  else
    let p := c.add_approval
      { fromP := caller, from_subaccount := args.from_subaccount, toP := args.toP,
        token_ids := args.token_ids, expires_at := args.expires_at, memo := args.memo }
    (.ok p.1, p.2)

/-- icrc7_approve from update.rs lines 85-126.  The ownership filter on
line 98 indexes c.tokens with the map index operator, which panics when
a referenced id is absent; collect drives the whole iterator, so the
call traps (none) as soon as any referenced id is missing. -/
def icrc7_approve (c : Collection) (args : ApproveArgs) (caller : Principal) (now : Nat) :
    Option (Except AppprovalError ApprovalID × Collection) :=
  if caller = anonymousPrincipal then
    some (.error (.GenericError 3 "anonymous calls are not supported"), c)
  else
    match args.token_ids with
    | none => some (approveCommit c args caller now)
    | some ids =>
      if ids.any (fun id => (listGet c.tokens id).isNone) then none
      else
        let unauthorized_ids := ids.filter
          (fun id => decide (((listGet c.tokens id).map (fun t => t.owner.owner)) ≠ some caller))
        if unauthorized_ids ≠ [] then some (.error (.Unauthorized unauthorized_ids), c)
        else some (approveCommit c args caller now)

/-- Arguments of icrc7_transfer, update.rs lines 129-136. -/
structure TransferArgs where
  fromArg : Option Account
  toAcc : Account
  token_ids : List TokenID
  memo : Option (List Nat)
  created_at_time : Option Nat
  is_atomic : Option Bool
deriving DecidableEq

/-- Transfer error taxonomy from update.rs lines 139-146. -/
inductive TransferError where
  | Unauthorized (token_ids : List TokenID)
  | TooOld
  | CreatedInFuture (ledger_time : Nat)
  | Duplicate (duplicate_of : Nat)
  | TemporarilyUnavailable
  | GenericError (error_code : Nat) (message : String)
deriving DecidableEq

/-- Resolution of the source account, update.rs lines 171-175. -/
def mkFrom (args : TransferArgs) (caller : Principal) : Account :=
  (args.fromArg.getD (Account.from_owner caller)).to_canonical

/-- The candidate transfer record, update.rs lines 177-183. -/
def mkTransfer (args : TransferArgs) (caller : Principal) (now : Nat) : Transfer :=
  { fromAcc := mkFrom args caller, toAcc := args.toAcc, token_ids := args.token_ids,
    memo := args.memo, created_at := args.created_at_time.getD now }

/-- The TooOld check of update.rs lines 157-162 (wrapping u64 addition). -/
def timeTooOld (args : TransferArgs) (now : Nat) : Bool :=
  match args.created_at_time with
  | some created_at => decide (now > wadd created_at PERMITTED_TIME_DRIFT)
  | none => false

/-- The CreatedInFuture check of update.rs lines 164-169. -/
def timeInFuture (args : TransferArgs) (now : Nat) : Bool :=
  match args.created_at_time with
  | some created_at => decide (wadd now PERMITTED_TIME_DRIFT < created_at)
  | none => false

/-- transfer_single from update.rs lines 224-261: existence check,
delegation check against the resolved from account, self-transfer check,
and the owner mutation when not a dry run. -/
def transfer_single (c : Collection) (id : TokenID) (fromA : Account)
    (args : TransferArgs) (caller : Principal) (now : Nat) (dry : Bool) :
    Option TransferError × Collection :=
  match listGet c.tokens id with
  | none =>
    (some (.GenericError 1 ("token with id " ++ toString id ++ " does not exist")), c)
  | some tok =>
    if fromA.owner ≠ caller ∧ c.find_approval_for_delegate fromA caller id now = none then
      (some (.Unauthorized [id]), c)
    else if fromA = args.toAcc then
      (some (.GenericError 2 "can\x27t transfer to self"), c)
    else if dry then (none, c)
    else (none, { c with tokens := listInsert c.tokens id { tok with owner := args.toAcc.to_canonical } })

/-- The apply closure of update.rs lines 191-202: run transfer_single over
the requested ids, collecting per-item errors and threading the state. -/
def applyLoop (args : TransferArgs) (fromA : Account) (caller : Principal) (now : Nat)
    (dry : Bool) : List TokenID → Collection → List TransferError × Collection
  | [], c => ([], c)
  | id :: rest, c =>
    let p := transfer_single c id fromA args caller now dry
    let q := applyLoop args fromA caller now dry rest p.2
    (match p.1 with
     | some e => e :: q.1
     | none => q.1, q.2)

/-- icrc7_transfer from update.rs lines 149-222.  The guard before the
duplicate search models the BTreeMap::range construction of state.rs
line 181, which panics when created_at + 1 wraps (created_at equal to
u64::MAX), and the final none branch models the assert of line 215. -/
def icrc7_transfer (c : Collection) (args : TransferArgs) (caller : Principal) (now : Nat) :
    Option (Except TransferError TransferID × Collection) :=
  if args.token_ids = [] then
    some (.error (.GenericError 4 "token_ids must not be empty"), c)
  else if timeTooOld args now then some (.error .TooOld, c)
  else if timeInFuture args now then some (.error (.CreatedInFuture now), c)
  else
    let fromA := mkFrom args caller
    let transfer := mkTransfer args caller now
    if wadd transfer.created_at 1 < transfer.created_at then none
    else
      match c.find_duplicate_transfer transfer with
      | some id => some (.error (.Duplicate id), c)
      | none =>
        let dry := args.is_atomic.getD true
        let r1 := applyLoop args fromA caller now dry args.token_ids c
        if args.is_atomic.getD true ∧ r1.1 ≠ [] then
          some (.error (r1.1.headD .TemporarilyUnavailable), r1.2)
        else
          let r2 := if dry then applyLoop args fromA caller now false args.token_ids r1.2 else r1
          if dry ∧ r2.1 ≠ [] then none
          else
            let p := r2.2.add_transfer transfer
            some (.ok p.1, p.2)

/-- The per-item validation verdict of transfer_single (update.rs lines
231-253), separated from the mutation: the error returned for a given id,
independent of the dry_run flag. -/
def tsRes (c : Collection) (id : TokenID) (fromA : Account) (args : TransferArgs)
    (caller : Principal) (now : Nat) : Option TransferError :=
  match listGet c.tokens id with
  | none =>
    some (.GenericError 1 ("token with id " ++ toString id ++ " does not exist"))
  | some _ =>
    if fromA.owner ≠ caller ∧ c.find_approval_for_delegate fromA caller id now = none then
      some (.Unauthorized [id])
    else if fromA = args.toAcc then
      some (.GenericError 2 "can\x27t transfer to self")
    else none

/-- The token-map mutation of update.rs lines 255-258: set the owner of id
to the canonicalized destination, when the token exists. -/
def updTokens (tokens : List (TokenID × Token)) (id : TokenID) (ta : Account) :
    List (TokenID × Token) :=
  match listGet tokens id with
  | none => tokens
  | some tok => listInsert tokens id { tok with owner := ta.to_canonical }

/-- The state effect of a non-dry successful transfer_single call. -/
def applyOwner (c : Collection) (id : TokenID) (ta : Account) : Collection :=
  { c with tokens := updTokens c.tokens id ta }

/-- Arguments of init, lib.rs lines 15-32; the optional collection image
arrives already decoded (external codec). -/
structure InitArgs where
  name : String
  symbol : String
  description : Option String
  royalties : Nat
  royalty_recipient : Account
  image : Option (List Nat)
  supply_cap : Option Nat
  authority : Principal
deriving DecidableEq

/-- The init entry point, lib.rs lines 35-58 (after its validity panics). -/
def initCollection (args : InitArgs) : Collection :=
  { name := args.name, symbol := args.symbol.toUpper, royalties := args.royalties,
    royalty_recipient := args.royalty_recipient, description := args.description,
    image := args.image, supply_cap := args.supply_cap, authority := some args.authority,
    tokens := [], approval_id_seq := 0, approvals := [], approvals_by_principal := [],
    transfer_id_seq := 0, transfers := [] }

/-- Reachable collection states: an initialized collection evolved by any
sequence of mint, approve, transfer and gc calls with arbitrary callers
and clock values.  Trapping calls (none) produce no successor state. -/
inductive Reachable : Collection → Prop where
  | init : ∀ args : InitArgs, args.royalties ≤ 10000 → args.supply_cap ≠ some 0 →
      Reachable (initCollection args)
  | mint : ∀ c margs caller dec, Reachable c →
      Reachable (mint_token c margs caller dec).2
  | approveStep : ∀ c aargs caller now p, Reachable c →
      icrc7_approve c aargs caller now = some p → Reachable p.2
  | transferStep : ∀ c targs caller now p, Reachable c →
      icrc7_transfer c targs caller now = some p → Reachable p.2
  | sweep : ∀ c now, Reachable c → Reachable (c.gc now)

/-! Concrete fixtures used by counterexamples and witnesses. -/

/-- An initialized empty collection with authority 1. -/
def baseC : Collection :=
  { name := "test", symbol := "TEST", royalties := 0,
    royalty_recipient := { owner := 1, subaccount := some 0 },
    description := none, image := none, supply_cap := none, authority := some 1,
    tokens := [], approval_id_seq := 0, approvals := [], approvals_by_principal := [],
    transfer_id_seq := 0, transfers := [] }

/-- A token with id 1 owned by the default account of the given principal. -/
def tok1 (ownerP : Principal) : Token :=
  { id := 1, name := "NFT-1", image := [], owner := { owner := ownerP, subaccount := some 0 } }

/-- Collection holding exactly token 1, owned by principal 2. -/
def cOwned2 : Collection := { baseC with tokens := [(1, tok1 2)] }

def argsC1 : TransferArgs :=
  { fromArg := none, toAcc := { owner := 3, subaccount := some 0 }, token_ids := [1],
    memo := none, created_at_time := none, is_atomic := none }

def argsC4 : TransferArgs :=
  { fromArg := none, toAcc := { owner := 2, subaccount := none }, token_ids := [1],
    memo := none, created_at_time := none, is_atomic := none }

def argsC3 : ApproveArgs :=
  { from_subaccount := none, toP := 9, token_ids := some [7], expires_at := none,
    memo := none, created_at := none }

def argsC3w : ApproveArgs :=
  { from_subaccount := none, toP := 9, token_ids := some [1], expires_at := none,
    memo := none, created_at := none }

/-- Collection whose transfer log holds one entry created at time 5. -/
def cC2 : Collection :=
  { baseC with transfers := [((5, 0),
      { fromAcc := { owner := 1, subaccount := some 0 },
        toAcc := { owner := 2, subaccount := some 0 },
        token_ids := [1], memo := none, created_at := 5 })] }

def iargsC5 : InitArgs :=
  { name := "", symbol := "", description := none, royalties := 0,
    royalty_recipient := { owner := 1, subaccount := some 0 }, image := none,
    supply_cap := none, authority := 1 }

def margsC5 : MintTokenArgs :=
  { id := 1, name := "NFT-1", owner := { owner := 2, subaccount := none } }

def targsC5 : TransferArgs :=
  { fromArg := none, toAcc := { owner := 3, subaccount := none }, token_ids := [1],
    memo := none, created_at_time := none, is_atomic := none }

/-- The collection after init and minting token 1 to principal 2. -/
def c5Minted : Collection := (mint_token (initCollection iargsC5) margsC5 1 (some [])).2

/-- The collection after principal 2 then transfers token 1 to a
destination account given without a subaccount. -/
def c5Final : Collection :=
  ((icrc7_transfer c5Minted targsC5 2 50).getD (.ok 0, c5Minted)).2

def argsC6 : TransferArgs :=
  { fromArg := none, toAcc := { owner := 3, subaccount := some 0 }, token_ids := [1],
    memo := none, created_at_time := some 1000000000000, is_atomic := none }

/-- The collection after the first successful submission of argsC6. -/
def c6After : Collection :=
  ((icrc7_transfer cOwned2 argsC6 2 1000000000000).getD (.ok 0, cOwned2)).2

def argsC7 : TransferArgs :=
  { fromArg := none, toAcc := { owner := 3, subaccount := some 0 }, token_ids := [2, 1],
    memo := none, created_at_time := none, is_atomic := none }

def argsC8 : TransferArgs :=
  { fromArg := none, toAcc := { owner := 3, subaccount := some 0 }, token_ids := [2, 1],
    memo := none, created_at_time := none, is_atomic := some false }

def argsC10 : TransferArgs :=
  { fromArg := none, toAcc := { owner := 3, subaccount := some 0 }, token_ids := [1],
    memo := none, created_at_time := none, is_atomic := none }

def argsC4w : TransferArgs :=
  { fromArg := none, toAcc := { owner := 2, subaccount := some 0 }, token_ids := [1],
    memo := none, created_at_time := none, is_atomic := none }

/-- The collection after the successful transfer of argsC10. -/
def c10After : Collection :=
  ((icrc7_transfer cOwned2 argsC10 2 1000).getD (.ok 0, cOwned2)).2

/-! Lemmas about the association-list primitives. -/

theorem listGet_listInsert {α β : Type} [DecidableEq α] (l : List (α × β)) (k k' : α) (v : β) :
    listGet (listInsert l k v) k' = if k = k' then some v else listGet l k' := by
  induction l with
  | nil => simp [listInsert, listGet]
  | cons kv rest ih =>
    obtain ⟨k0, v0⟩ := kv
    by_cases h0 : k0 = k
    · subst h0
      simp only [listInsert, if_pos rfl, listGet]
      by_cases h1 : k0 = k' <;> simp [h1]
    · simp only [listInsert, if_neg h0, listGet]
      by_cases h1 : k0 = k'
      · subst h1
        have hkk : k ≠ k0 := fun h => h0 h.symm
        simp [hkk]
      · simp [h1, ih]

theorem mem_listInsert {α β : Type} [DecidableEq α] (l : List (α × β)) (k : α) (v : β)
    (x : α × β) (hx : x ∈ listInsert l k v) : x ∈ l ∨ x = (k, v) := by
  induction l with
  | nil => simp [listInsert] at hx; right; exact hx
  | cons kv rest ih =>
    obtain ⟨k0, v0⟩ := kv
    by_cases h0 : k0 = k
    · subst h0
      simp only [listInsert, if_pos rfl] at hx
      rcases List.mem_cons.mp hx with h | h
      · right; exact h
      · left; exact List.mem_cons_of_mem _ h
    · simp only [listInsert, if_neg h0] at hx
      rcases List.mem_cons.mp hx with h | h
      · left; exact h ▸ List.mem_cons_self _ _
      · rcases ih h with h2 | h2
        · left; exact List.mem_cons_of_mem _ h2
        · right; exact h2

theorem mem_btreeInsert (L : List ((Nat × TransferID) × Transfer)) (k : Nat × TransferID)
    (v : Transfer) (x : (Nat × TransferID) × Transfer) (hx : x ∈ btreeInsert L k v) :
    x ∈ L ∨ x = (k, v) := by
  induction L with
  | nil => simp [btreeInsert] at hx; right; exact hx
  | cons kv rest ih =>
    obtain ⟨k0, v0⟩ := kv
    by_cases h0 : k = k0
    · simp only [btreeInsert, if_pos h0] at hx
      rcases List.mem_cons.mp hx with h | h
      · right; exact h
      · left; exact List.mem_cons_of_mem _ h
    · simp only [btreeInsert, if_neg h0] at hx
      by_cases h1 : keyLt k k0 = true
      · simp only [if_pos h1] at hx
        rcases List.mem_cons.mp hx with h | h
        · right; exact h
        · left; exact h
      · simp only [if_neg h1] at hx
        rcases List.mem_cons.mp hx with h | h
        · left; exact h ▸ List.mem_cons_self _ _
        · rcases ih h with h2 | h2
          · left; exact List.mem_cons_of_mem _ h2
          · right; exact h2

/-! Structure of transfer_single. -/

theorem transfer_single_eq (c : Collection) (id : TokenID) (fromA : Account)
    (args : TransferArgs) (caller : Principal) (now : Nat) (dry : Bool) :
    transfer_single c id fromA args caller now dry =
      (tsRes c id fromA args caller now,
       if tsRes c id fromA args caller now = none ∧ dry = false
       then applyOwner c id args.toAcc else c) := by
  unfold transfer_single tsRes applyOwner updTokens
  cases h : listGet c.tokens id with
  | none => simp
  | some tok =>
    by_cases h1 : fromA.owner ≠ caller ∧ c.find_approval_for_delegate fromA caller id now = none
    · simp [h1]
    · by_cases h2 : fromA = args.toAcc
      · subst h2
        simp [h1]
      · cases dry <;> simp [h1, h2]

theorem listGet_updTokens (tokens : List (TokenID × Token)) (id0 : TokenID) (ta : Account)
    (tid : TokenID) :
    listGet (updTokens tokens id0 ta) tid =
      if id0 = tid then
        (listGet tokens tid).map (fun tok => { tok with owner := ta.to_canonical })
      else listGet tokens tid := by
  unfold updTokens
  cases h : listGet tokens id0 with
  | none =>
    by_cases h1 : id0 = tid
    · subst h1; simp [h]
    · simp [h1]
  | some tok =>
    rw [listGet_listInsert]
    by_cases h1 : id0 = tid
    · subst h1; simp [h]
    · simp [h1]

/-- find_approval_for_delegate reads only the approvals and the owner
index, so it is invariant under any change of the other fields. -/
theorem faff_congr (c c' : Collection) (fa : Account) (d : Principal) (tid : TokenID)
    (now : Nat) (h1 : c'.approvals = c.approvals)
    (h2 : c'.approvals_by_principal = c.approvals_by_principal) :
    c'.find_approval_for_delegate fa d tid now = c.find_approval_for_delegate fa d tid now := by
  unfold Collection.find_approval_for_delegate
  rw [h1, h2]

/-- The per-item verdict depends on the token map only through presence
of the inspected id, so owner updates do not change it. -/
theorem tsRes_congr (c c' : Collection) (id : TokenID) (fromA : Account)
    (args : TransferArgs) (caller : Principal) (now : Nat)
    (hTok : ∀ t, (listGet c'.tokens t).isSome = (listGet c.tokens t).isSome)
    (h1 : c'.approvals = c.approvals)
    (h2 : c'.approvals_by_principal = c.approvals_by_principal) :
    tsRes c' id fromA args caller now = tsRes c id fromA args caller now := by
  unfold tsRes
  have hf := faff_congr c c' fromA caller id now h1 h2
  cases hx : listGet c.tokens id with
  | none =>
    cases hy : listGet c'.tokens id with
    | none => simp
    | some tok' =>
      exfalso
      have h := hTok id
      rw [hx, hy] at h
      simp at h
  | some tok =>
    cases hy : listGet c'.tokens id with
    | none =>
      exfalso
      have h := hTok id
      rw [hx, hy] at h
      simp at h
    | some tok' =>
      rw [hf]

/-- Owner updates are idempotent on an optional token. -/
theorem updOwner_idem (o : Option Token) (a : Account) :
    (o.map (fun tok => { tok with owner := a })).map (fun tok => { tok with owner := a }) =
      o.map (fun tok => { tok with owner := a }) := by
  cases o <;> rfl

theorem tsRes_applyOwner (c : Collection) (id0 : TokenID) (ta : Account) (i : TokenID)
    (fromA : Account) (args : TransferArgs) (caller : Principal) (now : Nat) :
    tsRes (applyOwner c id0 ta) i fromA args caller now = tsRes c i fromA args caller now := by
  apply tsRes_congr
  · intro t
    show (listGet (updTokens c.tokens id0 ta) t).isSome = (listGet c.tokens t).isSome
    rw [listGet_updTokens]
    by_cases h : id0 = t
    · subst h
      cases listGet c.tokens id0 <;> simp
    · simp [h]
  · rfl
  · rfl

/-! Structure of the apply loop of icrc7_transfer. -/

theorem applyLoop_dry_state (args : TransferArgs) (fromA : Account) (caller : Principal)
    (now : Nat) (ids : List TokenID) (c : Collection) :
    (applyLoop args fromA caller now true ids c).2 = c := by
  induction ids generalizing c with
  | nil => rfl
  | cons id rest ih =>
    simp only [applyLoop, transfer_single_eq]
    simp only [Bool.true_eq_false, and_false, if_false]
    exact ih c

theorem applyLoop_errs (args : TransferArgs) (fromA : Account) (caller : Principal)
    (now : Nat) (dry : Bool) (ids : List TokenID) (c : Collection) :
    (applyLoop args fromA caller now dry ids c).1 =
      ids.filterMap (fun id => tsRes c id fromA args caller now) := by
  induction ids generalizing c with
  | nil => rfl
  | cons id rest ih =>
    simp only [applyLoop, transfer_single_eq, List.filterMap_cons]
    by_cases h : tsRes c id fromA args caller now = none
    · rw [h]
      by_cases hd : dry = false
      · subst hd
        simp only [and_self, if_pos trivial, ih]
        simp only [tsRes_applyOwner]
      · have : dry = true := by
          cases dry
          · exact absurd rfl hd
          · rfl
        subst this
        simp only [Bool.true_eq_false, and_false, if_false, ih]
    · rcases Option.ne_none_iff_exists.mp h with ⟨e, he⟩
      rw [← he]
      simp only [reduceCtorEq, false_and, if_false, ih]

theorem applyLoop_state_eta (args : TransferArgs) (fromA : Account) (caller : Principal)
    (now : Nat) (dry : Bool) (ids : List TokenID) (c : Collection) :
    (applyLoop args fromA caller now dry ids c).2 =
      { c with tokens := ((applyLoop args fromA caller now dry ids c).2).tokens } := by
  induction ids generalizing c with
  | nil => rfl
  | cons id rest ih =>
    simp only [applyLoop, transfer_single_eq]
    by_cases h : tsRes c id fromA args caller now = none ∧ dry = false
    · simp only [if_pos h]
      rw [ih (applyOwner c id args.toAcc)]
      rfl
    · simp only [if_neg h]
      exact ih c

theorem applyLoop_tokens (args : TransferArgs) (fromA : Account) (caller : Principal)
    (now : Nat) (ids : List TokenID) (c : Collection) (tid : TokenID) :
    listGet ((applyLoop args fromA caller now false ids c).2).tokens tid =
      if tid ∈ ids ∧ tsRes c tid fromA args caller now = none
      then (listGet c.tokens tid).map (fun tok => { tok with owner := args.toAcc.to_canonical })
      else listGet c.tokens tid := by
  induction ids generalizing c with
  | nil => simp [applyLoop]
  | cons id rest ih =>
    simp only [applyLoop, transfer_single_eq]
    by_cases h : tsRes c id fromA args caller now = none
    · simp only [h, and_self, if_pos trivial]
      rw [ih (applyOwner c id args.toAcc)]
      simp only [tsRes_applyOwner]
      have hget : ∀ t, listGet (applyOwner c id args.toAcc).tokens t =
          if id = t then
            (listGet c.tokens t).map (fun tok => { tok with owner := args.toAcc.to_canonical })
          else listGet c.tokens t := fun t => listGet_updTokens c.tokens id args.toAcc t
      by_cases h1 : tid = id
      · subst h1
        simp only [hget, if_pos rfl]
        by_cases h2 : tid ∈ rest
        · simp only [h2, h, and_self, if_pos trivial, updOwner_idem]
          simp [h, List.mem_cons]
        · simp only [h2, false_and, if_neg (by simp [h2] : ¬(tid ∈ rest ∧ tsRes c tid fromA args caller now = none))]
          simp [h, List.mem_cons]
      · have hne : ¬id = tid := fun hh => h1 hh.symm
        simp only [hget, if_neg hne]
        by_cases h2 : tid ∈ rest
        · by_cases h3 : tsRes c tid fromA args caller now = none
          · simp [h2, h3, List.mem_cons]
          · simp [h2, h3, List.mem_cons]
        · have : ¬tid ∈ id :: rest := by
            intro hh
            rcases List.mem_cons.mp hh with hh | hh
            · exact h1 hh
            · exact h2 hh
          simp [h2, this]
    · have hcond : ¬(tsRes c id fromA args caller now = none ∧ True) := fun hc => h hc.1
      simp only [if_neg hcond]
      rw [ih c]
      by_cases h1 : tid = id
      · subst h1
        simp [h, List.mem_cons]
      · by_cases h2 : tid ∈ rest
        · simp [h2, List.mem_cons, h1]
        · have : ¬tid ∈ id :: rest := by
            intro hh
            rcases List.mem_cons.mp hh with hh | hh
            · exact h1 hh
            · exact h2 hh
          simp [h2, this]

/-- Inversion of a successful transfer call: all pre-checks passed, the
returned id is the current sequence value, and the final state is the
non-dry apply pass over the original state followed by add_transfer
(the same shape in both batch modes, since a dry pass leaves the state
unchanged). -/
theorem icrc7_transfer_ok_inv (c : Collection) (args : TransferArgs) (caller : Principal)
    (now : Nat) (tid : TransferID) (c' : Collection)
    (h : icrc7_transfer c args caller now = some (.ok tid, c')) :
    args.token_ids ≠ [] ∧
    timeTooOld args now = false ∧
    timeInFuture args now = false ∧
    ¬ wadd (mkTransfer args caller now).created_at 1 < (mkTransfer args caller now).created_at ∧
    c.find_duplicate_transfer (mkTransfer args caller now) = none ∧
    tid = c.transfer_id_seq ∧
    c' = (((applyLoop args (mkFrom args caller) caller now false args.token_ids c).2).add_transfer
          (mkTransfer args caller now)).2 := by
  unfold icrc7_transfer at h
  by_cases hNe : args.token_ids = []
  · rw [if_pos hNe] at h
    exact absurd h (by simp)
  rw [if_neg hNe] at h
  by_cases hOld : timeTooOld args now = true
  · rw [if_pos hOld] at h
    exact absurd h (by simp)
  rw [if_neg hOld] at h
  by_cases hFut : timeInFuture args now = true
  · rw [if_pos hFut] at h
    exact absurd h (by simp)
  rw [if_neg hFut] at h
  simp only [] at h
  by_cases hMax : wadd (mkTransfer args caller now).created_at 1 <
      (mkTransfer args caller now).created_at
  · rw [if_pos hMax] at h
    exact absurd h (by simp)
  rw [if_neg hMax] at h
  split at h
  · simp at h
  rename_i hDup
  have hseq : ((applyLoop args (mkFrom args caller) caller now false args.token_ids c).2).transfer_id_seq
      = c.transfer_id_seq := by
    rw [applyLoop_state_eta]
  by_cases hA : args.is_atomic.getD true = true
  · rw [hA] at h
    rw [applyLoop_dry_state] at h
    by_cases hErr : (applyLoop args (mkFrom args caller) caller now true args.token_ids c).1 ≠ []
    · rw [if_pos ⟨rfl, hErr⟩] at h
      exact absurd h (by simp)
    · rw [if_neg (fun hc => hErr hc.2)] at h
      rw [if_pos rfl] at h
      have hErr2 : ¬ (applyLoop args (mkFrom args caller) caller now false args.token_ids c).1 ≠ [] := by
        rw [applyLoop_errs]
        rw [applyLoop_errs] at hErr
        exact hErr
      rw [if_neg (fun hc => hErr2 hc.2)] at h
      simp only [Option.some.injEq, Prod.mk.injEq, Except.ok.injEq] at h
      obtain ⟨hTid, hC⟩ := h
      exact ⟨hNe, by simpa using hOld, by simpa using hFut, hMax, hDup,
        by rw [← hTid]; exact hseq, hC.symm⟩
  · have hB : args.is_atomic.getD true = false := by
      cases hx : args.is_atomic.getD true
      · rfl
      · exact absurd hx hA
    rw [hB] at h
    simp only [Bool.false_eq_true, false_and, if_false] at h
    simp only [Option.some.injEq, Prod.mk.injEq, Except.ok.injEq] at h
    obtain ⟨hTid, hC⟩ := h
    exact ⟨hNe, by simpa using hOld, by simpa using hFut, hMax, hDup,
      by rw [← hTid]; exact hseq, hC.symm⟩

/-- A list of token ids set-equals itself. -/
theorem eqSet_refl (l : List TokenID) : eqSet l l = true := by
  unfold eqSet
  rw [Bool.and_self]
  rw [List.all_eq_true]
  intro x hx
  exact List.elem_eq_true_of_mem hx

/-- Transfer records match themselves under the duplicate-detection test. -/
theorem transferMatches_self (t : Transfer) : transferMatches t t = true := by
  unfold transferMatches
  simp [eqSet_refl]

/-- Inserting the candidate record into a log that holds no duplicate of
it makes the duplicate scan find exactly the inserted id. -/
theorem fdtGo_insert (L : List ((Nat × TransferID) × Transfer)) (i : TransferID) (rec : Transfer)
    (hNone : fdtGo rec L = none) :
    fdtGo rec (btreeInsert L (rec.created_at, i) rec) = some i := by
  induction L with
  | nil => simp [btreeInsert, fdtGo, transferMatches_self]
  | cons kv rest ih =>
    obtain ⟨⟨ca0, id0⟩, tr0⟩ := kv
    have hhead : ¬(decide (ca0 = rec.created_at) && transferMatches tr0 rec) = true := by
      intro hx
      simp only [fdtGo, if_pos hx] at hNone
      exact absurd hNone (by simp)
    have htail : fdtGo rec rest = none := by
      simp only [fdtGo, if_neg hhead] at hNone
      exact hNone
    simp only [btreeInsert]
    by_cases h0 : (rec.created_at, i) = (ca0, id0)
    · rw [if_pos h0]
      simp [fdtGo, transferMatches_self]
    · rw [if_neg h0]
      by_cases h1 : keyLt (rec.created_at, i) (ca0, id0) = true
      · rw [if_pos h1]
        simp [fdtGo, transferMatches_self]
      · rw [if_neg h1]
        simp only [fdtGo, if_neg hhead]
        exact ih htail

/-- Below 2^64 and without underflow, wrapping subtraction is plain
subtraction. -/
theorem wsub_eq_sub (a b : Nat) (h1 : b ≤ a) (h2 : a < U64) :
    wsub a b = a - b := by
  unfold wsub
  have he : a + U64 - b = (a - b) + U64 := by omega
  rw [he, Nat.add_mod_right]
  exact Nat.mod_eq_of_lt (by omega)

/-- C6 (amended): a transfer request carrying an explicit created_at that
succeeded once yields Duplicate with the first id, and leaves the state
unchanged, when resubmitted at any ledger time that still passes the
permitted-drift checks. -/
theorem c6_duplicate_on_retry (c : Collection) (args : TransferArgs) (caller : Principal)
    (now1 now2 t : Nat) (tid : TransferID) (c' : Collection)
    (hca : args.created_at_time = some t)
    (h1 : icrc7_transfer c args caller now1 = some (.ok tid, c'))
    (hOld2 : now2 ≤ wadd t PERMITTED_TIME_DRIFT)
    (hFut2 : t ≤ wadd now2 PERMITTED_TIME_DRIFT) :
    icrc7_transfer c' args caller now2 = some (.error (.Duplicate tid), c') := by
  obtain ⟨hNe, hOldF, hFutF, hMax, hDup, hTid, hC⟩ :=
    icrc7_transfer_ok_inv c args caller now1 tid c' h1
  have hrec : mkTransfer args caller now2 = mkTransfer args caller now1 := by
    unfold mkTransfer
    rw [hca]
    rfl
  have hXtr : ((applyLoop args (mkFrom args caller) caller now1 false args.token_ids c).2).transfers
      = c.transfers := by
    rw [applyLoop_state_eta]
  have hXseq : ((applyLoop args (mkFrom args caller) caller now1 false args.token_ids c).2).transfer_id_seq
      = c.transfer_id_seq := by
    rw [applyLoop_state_eta]
  have htr : c'.transfers =
      btreeInsert c.transfers ((mkTransfer args caller now1).created_at, c.transfer_id_seq)
        (mkTransfer args caller now1) := by
    rw [hC]
    show btreeInsert _ (_, _) _ = _
    rw [hXtr, hXseq]
  have hfound : c'.find_duplicate_transfer (mkTransfer args caller now1) = some tid := by
    unfold Collection.find_duplicate_transfer
    rw [htr, hTid]
    exact fdtGo_insert c.transfers c.transfer_id_seq (mkTransfer args caller now1) hDup
  have hOld2' : timeTooOld args now2 = false := by
    unfold timeTooOld
    rw [hca]
    exact decide_eq_false_iff_not.mpr (by omega)
  have hFut2' : timeInFuture args now2 = false := by
    unfold timeInFuture
    rw [hca]
    exact decide_eq_false_iff_not.mpr (by omega)
  unfold icrc7_transfer
  rw [if_neg hNe]
  rw [if_neg (by rw [hOld2']; simp : ¬ timeTooOld args now2 = true)]
  rw [if_neg (by rw [hFut2']; simp : ¬ timeInFuture args now2 = true)]
  simp only []
  rw [hrec]
  rw [if_neg hMax]
  rw [hfound]

/-- C7: a transfer call in atomic mode (flag set or absent) that reaches
per-item validation and has at least one failing item returns the first
per-item validation error, in request order, and leaves the collection
completely unchanged. -/
theorem c7_atomic_first_error (c : Collection) (args : TransferArgs) (caller : Principal)
    (now : Nat)
    (hAtomic : args.is_atomic.getD true = true)
    (hNe : args.token_ids ≠ [])
    (hOld : timeTooOld args now = false)
    (hFut : timeInFuture args now = false)
    (hMax : ¬ wadd (mkTransfer args caller now).created_at 1 <
      (mkTransfer args caller now).created_at)
    (hDup : c.find_duplicate_transfer (mkTransfer args caller now) = none)
    (hFail : args.token_ids.filterMap
        (fun id => (transfer_single c id (mkFrom args caller) args caller now true).1) ≠ []) :
    icrc7_transfer c args caller now =
      some (.error ((args.token_ids.filterMap
        (fun id => (transfer_single c id (mkFrom args caller) args caller now true).1)).headD
          .TemporarilyUnavailable), c) := by
  have hFail' : (applyLoop args (mkFrom args caller) caller now (args.is_atomic.getD true)
      args.token_ids c).1 ≠ [] := by
    rw [applyLoop_errs]
    simpa [transfer_single_eq] using hFail
  unfold icrc7_transfer
  rw [if_neg hNe]
  rw [if_neg (by rw [hOld]; simp : ¬ timeTooOld args now = true)]
  rw [if_neg (by rw [hFut]; simp : ¬ timeInFuture args now = true)]
  simp only []
  rw [if_neg hMax, hDup]
  rw [if_pos ⟨hAtomic, hFail'⟩]
  rw [hAtomic]
  rw [applyLoop_dry_state]
  rw [applyLoop_errs]
  simp [transfer_single_eq]

/-- C8: a non-atomic transfer call that reaches per-item validation
succeeds with the next transfer id; exactly the requested items that pass
per-item validation get the canonicalized destination as owner, failing
items are skipped, and the stored Transfer record lists the originally
requested item-id set. -/
theorem c8_nonatomic_partial (c : Collection) (args : TransferArgs) (caller : Principal)
    (now : Nat)
    (hNa : args.is_atomic = some false)
    (hNe : args.token_ids ≠ [])
    (hOld : timeTooOld args now = false)
    (hFut : timeInFuture args now = false)
    (hMax : ¬ wadd (mkTransfer args caller now).created_at 1 <
      (mkTransfer args caller now).created_at)
    (hDup : c.find_duplicate_transfer (mkTransfer args caller now) = none) :
    ∃ c', icrc7_transfer c args caller now = some (.ok c.transfer_id_seq, c') ∧
      (∀ tid, listGet c'.tokens tid =
        if tid ∈ args.token_ids ∧
            (transfer_single c tid (mkFrom args caller) args caller now true).1 = none
        then (listGet c.tokens tid).map
          (fun tok => { tok with owner := args.toAcc.to_canonical })
        else listGet c.tokens tid) ∧
      c'.transfers = btreeInsert c.transfers
        ((mkTransfer args caller now).created_at, c.transfer_id_seq)
        (mkTransfer args caller now) ∧
      (mkTransfer args caller now).token_ids = args.token_ids := by
  refine ⟨(((applyLoop args (mkFrom args caller) caller now false args.token_ids c).2).add_transfer
      (mkTransfer args caller now)).2, ?_, ?_, ?_, rfl⟩
  · unfold icrc7_transfer
    rw [if_neg hNe]
    rw [if_neg (by rw [hOld]; simp : ¬ timeTooOld args now = true)]
    rw [if_neg (by rw [hFut]; simp : ¬ timeInFuture args now = true)]
    simp only []
    rw [if_neg hMax, hDup]
    rw [hNa]
    simp only [Option.getD_some, Bool.false_eq_true, false_and, if_false]
    have hXseq : ((applyLoop args (mkFrom args caller) caller now false args.token_ids c).2).transfer_id_seq
        = c.transfer_id_seq := by
      rw [applyLoop_state_eta]
    show some (Except.ok _, _) = _
    rw [show (((applyLoop args (mkFrom args caller) caller now false args.token_ids c).2).add_transfer
      (mkTransfer args caller now)).1 = c.transfer_id_seq from hXseq]
  · intro tid
    show listGet ((applyLoop args (mkFrom args caller) caller now false args.token_ids c).2).tokens tid = _
    rw [applyLoop_tokens]
    simp only [transfer_single_eq]
  · show btreeInsert ((applyLoop args (mkFrom args caller) caller now false args.token_ids c).2).transfers
      ((mkTransfer args caller now).created_at,
        ((applyLoop args (mkFrom args caller) caller now false args.token_ids c).2).transfer_id_seq)
      (mkTransfer args caller now) = _
    rw [show ((applyLoop args (mkFrom args caller) caller now false args.token_ids c).2).transfers
      = c.transfers by rw [applyLoop_state_eta]]
    rw [show ((applyLoop args (mkFrom args caller) caller now false args.token_ids c).2).transfer_id_seq
      = c.transfer_id_seq by rw [applyLoop_state_eta]]

/-- C10: a successful transfer changes only the owner fields of (a subset
of) the requested tokens, inserts the candidate record into the transfer
log under the next id, and increments the transfer id counter; approvals,
their owner index, the approval counter, token ids, names and images, and
the whole collection configuration are untouched. -/
theorem c10_transfer_frame (c : Collection) (args : TransferArgs) (caller : Principal)
    (now : Nat) (tid : TransferID) (c' : Collection)
    (h : icrc7_transfer c args caller now = some (.ok tid, c')) :
    tid = c.transfer_id_seq ∧
    c'.transfer_id_seq = c.transfer_id_seq + 1 ∧
    c'.transfers = btreeInsert c.transfers
      ((mkTransfer args caller now).created_at, c.transfer_id_seq) (mkTransfer args caller now) ∧
    c'.approvals = c.approvals ∧
    c'.approvals_by_principal = c.approvals_by_principal ∧
    c'.approval_id_seq = c.approval_id_seq ∧
    c'.name = c.name ∧ c'.symbol = c.symbol ∧ c'.royalties = c.royalties ∧
    c'.royalty_recipient = c.royalty_recipient ∧ c'.description = c.description ∧
    c'.image = c.image ∧ c'.supply_cap = c.supply_cap ∧ c'.authority = c.authority ∧
    (∀ t, t ∉ args.token_ids → listGet c'.tokens t = listGet c.tokens t) ∧
    (∀ t, (listGet c'.tokens t).map (fun tok => (tok.id, tok.name, tok.image)) =
          (listGet c.tokens t).map (fun tok => (tok.id, tok.name, tok.image))) := by
  obtain ⟨hNe, hOldF, hFutF, hMax, hDup, hTid, hC⟩ :=
    icrc7_transfer_ok_inv c args caller now tid c' h
  subst hC
  have hEta := applyLoop_state_eta args (mkFrom args caller) caller now false args.token_ids c
  refine ⟨hTid, ?_, ?_, ?_, ?_, ?_, ?_, ?_, ?_, ?_, ?_, ?_, ?_, ?_, ?_, ?_⟩
  · show ((applyLoop args (mkFrom args caller) caller now false args.token_ids c).2).transfer_id_seq + 1 = _
    rw [hEta]
  · show btreeInsert ((applyLoop args (mkFrom args caller) caller now false args.token_ids c).2).transfers
      ((mkTransfer args caller now).created_at,
        ((applyLoop args (mkFrom args caller) caller now false args.token_ids c).2).transfer_id_seq)
      (mkTransfer args caller now) = _
    rw [hEta]
  · show ((applyLoop args (mkFrom args caller) caller now false args.token_ids c).2).approvals = _
    rw [hEta]
  · show ((applyLoop args (mkFrom args caller) caller now false args.token_ids c).2).approvals_by_principal = _
    rw [hEta]
  · show ((applyLoop args (mkFrom args caller) caller now false args.token_ids c).2).approval_id_seq = _
    rw [hEta]
  · show ((applyLoop args (mkFrom args caller) caller now false args.token_ids c).2).name = _
    rw [hEta]
  · show ((applyLoop args (mkFrom args caller) caller now false args.token_ids c).2).symbol = _
    rw [hEta]
  · show ((applyLoop args (mkFrom args caller) caller now false args.token_ids c).2).royalties = _
    rw [hEta]
  · show ((applyLoop args (mkFrom args caller) caller now false args.token_ids c).2).royalty_recipient = _
    rw [hEta]
  · show ((applyLoop args (mkFrom args caller) caller now false args.token_ids c).2).description = _
    rw [hEta]
  · show ((applyLoop args (mkFrom args caller) caller now false args.token_ids c).2).image = _
    rw [hEta]
  · show ((applyLoop args (mkFrom args caller) caller now false args.token_ids c).2).supply_cap = _
    rw [hEta]
  · show ((applyLoop args (mkFrom args caller) caller now false args.token_ids c).2).authority = _
    rw [hEta]
  · intro t ht
    show listGet ((applyLoop args (mkFrom args caller) caller now false args.token_ids c).2).tokens t = _
    rw [applyLoop_tokens]
    simp [ht]
  · intro t
    show (listGet ((applyLoop args (mkFrom args caller) caller now false args.token_ids c).2).tokens t).map _ = _
    rw [applyLoop_tokens]
    by_cases hcond : t ∈ args.token_ids ∧ tsRes c t (mkFrom args caller) args caller now = none
    · rw [if_pos hcond]
      cases listGet c.tokens t <;> rfl
    · rw [if_neg hcond]

/-- C9: the delegation lookup inspects only the first approval id stored
in the owner index entry: for an index entry (a0 :: rest) the result does
not depend on rest, and equals some a0 exactly when that first approval
exists and its delegate matches, its item-id restriction (when present)
contains the item, it is unexpired at the current time, and its
sub-identifier restriction (when present) equals the owner account
canonical sub-identifier; otherwise no approval is returned. -/
theorem c9_first_candidate_only (c : Collection) (fa : Account) (d : Principal)
    (tid : TokenID) (now : Nat) (a0 : ApprovalID) (rest : List ApprovalID) :
    Collection.find_approval_for_delegate
      { c with approvals_by_principal := listInsert c.approvals_by_principal fa.owner (a0 :: rest) }
      fa d tid now =
      match listGet c.approvals a0 with
      | none => none
      | some ap =>
        if ap.toP = d ∧ ap.token_ids.all (fun s => s.contains tid) = true ∧
            ap.expires_at.all (fun e => decide (now ≤ e)) = true ∧
            ap.from_subaccount.all
              (fun sa => decide (sa = (fa.to_canonical).subaccount.getD 0)) = true
        then some a0 else none := by
  unfold Collection.find_approval_for_delegate
  rw [show listGet
      ({ c with approvals_by_principal := listInsert c.approvals_by_principal fa.owner (a0 :: rest) } :
        Collection).approvals_by_principal fa.owner = some (a0 :: rest) by
    show listGet (listInsert c.approvals_by_principal fa.owner (a0 :: rest)) fa.owner = _
    rw [listGet_listInsert]
    simp]
  dsimp only
  cases listGet c.approvals a0 with
  | none => rfl
  | some ap =>
    dsimp only
    by_cases h1 : ap.toP = d
    · rw [if_neg (fun hx => hx h1)]
      cases htok : ap.token_ids <;> cases hexp : ap.expires_at <;> cases hsub : ap.from_subaccount <;>
        simp only [Option.all_some, Option.all_none, Option.isSome_some, Option.isSome_none,
          Option.getD_some, false_and, true_and, if_false, h1, Account.to_canonical,
          decide_eq_true_eq, if_true, and_true] <;>
        split_ifs <;> simp_all <;> omega
    · rw [if_pos h1]
      rw [if_neg (fun hx => h1 hx.1)]

/-- Filtering twice with the same predicate equals filtering once. -/
theorem filter_idem {α : Type} (p : α → Bool) (l : List α) :
    (l.filter p).filter p = l.filter p :=
  List.filter_eq_self.mpr (fun _ ha => (List.mem_filter.mp ha).2)

/-- Mapping a function that fixes every element of a list is the identity. -/
theorem map_of_fixed {α : Type} (f : α → α) (l : List α) (h : ∀ a ∈ l, f a = a) :
    l.map f = l := by
  induction l with
  | nil => rfl
  | cons x xs ih =>
    rw [List.map_cons, h x (List.mem_cons_self x xs),
      ih (fun a ha => h a (List.mem_cons_of_mem _ ha))]

/-- The owner-index repair pass of gc is idempotent. -/
theorem abp_pass_idem {α β : Type} [DecidableEq α] (r : β → Bool) (l : List (α × List β)) :
    ((l.map (fun kv => (kv.1, kv.2.filter r))).filter (fun kv => !kv.2.isEmpty)).map
        (fun kv => (kv.1, kv.2.filter r)) =
      (l.map (fun kv => (kv.1, kv.2.filter r))).filter (fun kv => !kv.2.isEmpty) := by
  apply map_of_fixed
  intro a ha
  have hmem := (List.mem_filter.mp ha).1
  obtain ⟨kv0, hkv0, hfa⟩ := List.mem_map.mp hmem
  have h2 : a.2 = kv0.2.filter r := by rw [← hfa]
  show (a.1, a.2.filter r) = a
  rw [h2, filter_idem, ← h2]

/-- Running gc twice at the same instant equals running it once: removing
already-absent entries is a no-op. -/
theorem gc_idem (c : Collection) (now : Nat) : (c.gc now).gc now = c.gc now := by
  unfold Collection.gc
  simp only [filter_idem]
  congr 1
  rw [abp_pass_idem]
  exact filter_idem _ _

/-- C2 (amended): for every now of at least the retention window (so the
u64 subtraction does not wrap), gc keeps exactly the transfer entries
with created_at at least now minus the window, removes exactly the
approvals whose expiry is set and below now, and a repeated call is a
no-op. -/
theorem c2_gc_characterization (c : Collection) (now : Nat)
    (hW : TX_DEDUPLICATION_WINDOW ≤ now) (hU : now < U64) :
    (c.gc now).transfers = c.transfers.filter
      (fun kv => decide (now - TX_DEDUPLICATION_WINDOW ≤ kv.1.1)) ∧
    (c.gc now).approvals = c.approvals.filter
      (fun kv => !(kv.2.expires_at.isSome && decide (kv.2.expires_at.getD 0 < now))) ∧
    (c.gc now).gc now = c.gc now := by
  refine ⟨?_, rfl, gc_idem c now⟩
  show c.transfers.filter (fun kv => decide (wsub now TX_DEDUPLICATION_WINDOW ≤ kv.1.1)) = _
  rw [wsub_eq_sub now TX_DEDUPLICATION_WINDOW hW hU]

/-- C2 counterexample: calling gc with now smaller than the retention
window wraps the u64 subtraction and removes a transfer entry whose
created_at is at least now minus the window, which the claim forbids:
with one entry created at 5, gc at now 10 empties the log. -/
theorem c2_gc_removes_retained_entry :
    (cC2.gc 10).transfers = [] ∧
    10 - TX_DEDUPLICATION_WINDOW ≤ 5 ∧
    cC2.transfers.length = 1 := by
  refine ⟨rfl, by decide, rfl⟩

/-- C4 (amended): the self-transfer rejection compares the canonicalized
source account structurally against the raw destination argument: when
they are structurally equal (and the item exists and the caller is
authorized), the item is rejected as a self transfer with the state
unchanged, in both dry and apply passes, hence in both batch modes. -/
theorem c4_self_transfer_exact (c : Collection) (id : TokenID) (fromA : Account)
    (args : TransferArgs) (caller : Principal) (now : Nat) (dry : Bool) (tok : Token)
    (hTok : listGet c.tokens id = some tok)
    (hAuth : fromA.owner = caller ∨ c.find_approval_for_delegate fromA caller id now ≠ none)
    (hSelf : fromA = args.toAcc) :
    transfer_single c id fromA args caller now dry =
      (some (.GenericError 2 "can\x27t transfer to self"), c) := by
  unfold transfer_single
  rw [hTok]
  show (if _ then _ else _) = _
  rw [if_neg (by
    rintro ⟨hne, hnone⟩
    rcases hAuth with h | h
    · exact hne h
    · exact h hnone)]
  rw [if_pos hSelf]

/-- C4 counterexample: a destination account that equals the resolved
source under canonical equality but is given without a subaccount is not
rejected: owner 2 transfers token 1 to its own account written without a
subaccount and the call succeeds instead of rejecting a self transfer. -/
theorem c4_noncanonical_self_transfer_accepted :
    Account.to_canonical argsC4.toAcc = mkFrom argsC4 2 ∧
    (icrc7_transfer cOwned2 argsC4 2 1000).map Prod.fst = some (.ok 0) :=
  ⟨rfl, rfl⟩

/-- C3 counterexample: an approve call referencing an item id with no
entry in the registry does not return Unauthorized: the ownership filter
indexes the token map and the call traps (modelled as none). -/
theorem c3_approve_missing_item_traps :
    icrc7_approve baseC argsC3 5 0 = none ∧ baseC.tokens = [] := ⟨rfl, rfl⟩

/-- C3 (amended): when every referenced item exists, an approve call by a
non-anonymous caller that does not own all of them returns Unauthorized
listing exactly the ids the caller does not own, with no approval stored
and the state unchanged. -/
theorem c3_approve_unauthorized_exact (c : Collection) (args : ApproveArgs) (caller : Principal)
    (now : Nat) (ids : List TokenID)
    (hAnon : caller ≠ anonymousPrincipal)
    (hIds : args.token_ids = some ids)
    (hEx : ∀ id ∈ ids, (listGet c.tokens id).isSome = true)
    (hOff : ids.filter (fun id =>
        decide (((listGet c.tokens id).map (fun t => t.owner.owner)) ≠ some caller)) ≠ []) :
    icrc7_approve c args caller now =
      some (.error (.Unauthorized (ids.filter (fun id =>
        decide (((listGet c.tokens id).map (fun t => t.owner.owner)) ≠ some caller)))), c) := by
  unfold icrc7_approve
  rw [if_neg hAnon, hIds]
  have hAny : (ids.any fun id => (listGet c.tokens id).isNone) = false := by
    rw [List.any_eq_false]
    intro x hx
    have h := hEx x hx
    cases hg : listGet c.tokens x with
    | none => rw [hg] at h; simp at h
    | some tok => simp
  show (if _ then _ else _) = _
  rw [if_neg (by rw [hAny]; simp : ¬ (ids.any fun id => (listGet c.tokens id).isNone) = true)]
  rw [if_pos hOff]

/-- A token predicate that holds for every stored token and for every
token rewritten to the canonicalized destination is preserved by the
apply loop. -/
theorem applyLoop_tokens_pred (P : Token → Prop) (args : TransferArgs) (fromA : Account)
    (caller : Principal) (now : Nat) (dry : Bool) (ids : List TokenID) (c : Collection)
    (hP : ∀ tok : Token, P { tok with owner := args.toAcc.to_canonical })
    (hc : ∀ kv ∈ c.tokens, P kv.2) :
    ∀ kv ∈ ((applyLoop args fromA caller now dry ids c).2).tokens, P kv.2 := by
  induction ids generalizing c with
  | nil => exact hc
  | cons id rest ih =>
    simp only [applyLoop, transfer_single_eq]
    by_cases h : tsRes c id fromA args caller now = none ∧ dry = false
    · rw [if_pos h]
      apply ih
      intro kv hkv
      show P kv.2
      have hkv' : kv ∈ updTokens c.tokens id args.toAcc := hkv
      unfold updTokens at hkv'
      cases hg : listGet c.tokens id with
      | none => rw [hg] at hkv'; exact hc kv hkv'
      | some tok =>
        rw [hg] at hkv'
        rcases mem_listInsert _ _ _ _ hkv' with hin | heq
        · exact hc kv hin
        · rw [heq]
          exact hP tok
    · rw [if_neg h]
      exact ih c hc

/-- mint_token leaves the transfer log unchanged, and every token of the
resulting state is either an old token or carries the canonicalized
requested owner. -/
theorem mint_token_tokens (c : Collection) (margs : MintTokenArgs) (caller : Principal)
    (dec : Option (List Nat)) :
    ((mint_token c margs caller dec).2.transfers = c.transfers) ∧
    ∀ kv ∈ (mint_token c margs caller dec).2.tokens,
      kv ∈ c.tokens ∨ kv.2.owner = margs.owner.to_canonical := by
  unfold mint_token
  cases c.authority with
  | none => exact ⟨rfl, fun kv hkv => Or.inl hkv⟩
  | some auth =>
    dsimp only
    by_cases h1 : auth ≠ caller
    · rw [if_pos h1]
      exact ⟨rfl, fun kv hkv => Or.inl hkv⟩
    · rw [if_neg h1]
      by_cases h2 : c.tokens.length = c.supply_cap.getD USIZE_MAX
      · rw [if_pos h2]
        exact ⟨rfl, fun kv hkv => Or.inl hkv⟩
      · rw [if_neg h2]
        by_cases h3 : (listGet c.tokens margs.id).isSome = true
        · rw [if_pos h3]
          exact ⟨rfl, fun kv hkv => Or.inl hkv⟩
        · rw [if_neg h3]
          cases dec with
          | none => exact ⟨rfl, fun kv hkv => Or.inl hkv⟩
          | some image =>
            refine ⟨rfl, fun kv hkv => ?_⟩
            have hkv' : kv ∈ listInsert c.tokens margs.id
                { id := margs.id, name := margs.name, image := image,
                  owner := margs.owner.to_canonical } := hkv
            rcases mem_listInsert _ _ _ _ hkv' with hin | heq
            · exact Or.inl hin
            · rw [heq]
              exact Or.inr rfl

/-- A non-trapping approve call never touches the token map or the
transfer log. -/
theorem icrc7_approve_frame (c : Collection) (args : ApproveArgs) (caller : Principal)
    (now : Nat) (p : Except AppprovalError ApprovalID × Collection)
    (h : icrc7_approve c args caller now = some p) :
    p.2.tokens = c.tokens ∧ p.2.transfers = c.transfers := by
  have hcommit : ∀ q : Except AppprovalError ApprovalID × Collection,
      approveCommit c args caller now = q → q.2.tokens = c.tokens ∧ q.2.transfers = c.transfers := by
    intro q hq
    unfold approveCommit at hq
    by_cases ht : approveTooOld args now = true
    · rw [if_pos ht] at hq
      rw [← hq]
      exact ⟨rfl, rfl⟩
    · rw [if_neg ht] at hq
      rw [← hq]
      exact ⟨rfl, rfl⟩
  unfold icrc7_approve at h
  by_cases h1 : caller = anonymousPrincipal
  · rw [if_pos h1] at h
    cases h
    exact ⟨rfl, rfl⟩
  rw [if_neg h1] at h
  cases hids : args.token_ids with
  | none =>
    rw [hids] at h
    dsimp only at h
    exact hcommit p (Option.some.inj h)
  | some ids =>
    rw [hids] at h
    dsimp only at h
    by_cases h2 : (ids.any fun id => (listGet c.tokens id).isNone) = true
    · rw [if_pos h2] at h
      cases h
    · rw [if_neg h2] at h
      by_cases h3 : (ids.filter fun id =>
          decide (((listGet c.tokens id).map fun t => t.owner.owner) ≠ some caller)) ≠ []
      · rw [if_pos h3] at h
        cases h
        exact ⟨rfl, rfl⟩
      · rw [if_neg h3] at h
        exact hcommit p (Option.some.inj h)

/-- Every non-trapping transfer call leaves the state unchanged or
commits the apply pass followed by add_transfer. -/
theorem icrc7_transfer_state_inv (c : Collection) (args : TransferArgs) (caller : Principal)
    (now : Nat) (p : Except TransferError TransferID × Collection)
    (h : icrc7_transfer c args caller now = some p) :
    p.2 = c ∨
    p.2 = (((applyLoop args (mkFrom args caller) caller now false args.token_ids c).2).add_transfer
          (mkTransfer args caller now)).2 := by
  unfold icrc7_transfer at h
  by_cases hNe : args.token_ids = []
  · rw [if_pos hNe] at h
    exact Or.inl (congrArg Prod.snd (Option.some.inj h)).symm
  rw [if_neg hNe] at h
  by_cases hOld : timeTooOld args now = true
  · rw [if_pos hOld] at h
    exact Or.inl (congrArg Prod.snd (Option.some.inj h)).symm
  rw [if_neg hOld] at h
  by_cases hFut : timeInFuture args now = true
  · rw [if_pos hFut] at h
    exact Or.inl (congrArg Prod.snd (Option.some.inj h)).symm
  rw [if_neg hFut] at h
  simp only [] at h
  by_cases hMax : wadd (mkTransfer args caller now).created_at 1 <
      (mkTransfer args caller now).created_at
  · rw [if_pos hMax] at h
    cases h
  rw [if_neg hMax] at h
  split at h
  · exact Or.inl (congrArg Prod.snd (Option.some.inj h)).symm
  by_cases hA : args.is_atomic.getD true = true
  · rw [hA] at h
    rw [applyLoop_dry_state] at h
    by_cases hErr : (applyLoop args (mkFrom args caller) caller now true args.token_ids c).1 ≠ []
    · rw [if_pos ⟨rfl, hErr⟩] at h
      exact Or.inl (congrArg Prod.snd (Option.some.inj h)).symm
    · rw [if_neg (fun hc => hErr hc.2)] at h
      rw [if_pos rfl] at h
      have hErr2 : ¬ (applyLoop args (mkFrom args caller) caller now false args.token_ids c).1
          ≠ [] := by
        rw [applyLoop_errs]
        rw [applyLoop_errs] at hErr
        exact hErr
      rw [if_neg (fun hc => hErr2 hc.2)] at h
      exact Or.inr (congrArg Prod.snd (Option.some.inj h)).symm
  · have hB : args.is_atomic.getD true = false := by
      cases hx : args.is_atomic.getD true
      · rfl
      · exact absurd hx hA
    rw [hB] at h
    simp only [Bool.false_eq_true, false_and, if_false] at h
    exact Or.inr (congrArg Prod.snd (Option.some.inj h)).symm

/-- C5 (amended): in every reachable collection state, every stored token
owner account and the source account of every stored transfer are
canonical (sub-identifier present).  (The destination account of a stored
transfer is excluded: it is stored verbatim, see the counterexample.) -/
theorem c5_canonical_invariant (c : Collection) (h : Reachable c) :
    (∀ kv ∈ c.tokens, (kv.2.owner.subaccount).isSome = true) ∧
    (∀ kv ∈ c.transfers, (kv.2.fromAcc.subaccount).isSome = true) := by
  induction h with
  | init args h1 h2 =>
    constructor
    · intro kv hkv
      simp [initCollection] at hkv
    · intro kv hkv
      simp [initCollection] at hkv
  | mint c margs caller dec hr ih =>
    obtain ⟨htr, htok⟩ := mint_token_tokens c margs caller dec
    constructor
    · intro kv hkv
      rcases htok kv hkv with hin | hown
      · exact ih.1 kv hin
      · rw [hown]
        rfl
    · intro kv hkv
      rw [htr] at hkv
      exact ih.2 kv hkv
  | approveStep c aargs caller now p hr hcall ih =>
    obtain ⟨htok, htr⟩ := icrc7_approve_frame c aargs caller now p hcall
    constructor
    · intro kv hkv
      rw [htok] at hkv
      exact ih.1 kv hkv
    · intro kv hkv
      rw [htr] at hkv
      exact ih.2 kv hkv
  | transferStep c targs caller now p hr hcall ih =>
    rcases icrc7_transfer_state_inv c targs caller now p hcall with hsame | hcommit
    · rw [hsame]
      exact ih
    · rw [hcommit]
      constructor
      · intro kv hkv
        have hkv' : kv ∈ ((applyLoop targs (mkFrom targs caller) caller now false
            targs.token_ids c).2).tokens := hkv
        refine applyLoop_tokens_pred (fun tok => (tok.owner.subaccount).isSome = true)
          targs (mkFrom targs caller) caller now false targs.token_ids c
          (fun tok => rfl) ih.1 kv hkv'
      · intro kv hkv
        have hkv' : kv ∈ btreeInsert
            (((applyLoop targs (mkFrom targs caller) caller now false targs.token_ids c).2).transfers)
            ((mkTransfer targs caller now).created_at,
              ((applyLoop targs (mkFrom targs caller) caller now false targs.token_ids c).2).transfer_id_seq)
            (mkTransfer targs caller now) := hkv
        rw [show ((applyLoop targs (mkFrom targs caller) caller now false targs.token_ids c).2).transfers
            = c.transfers by rw [applyLoop_state_eta]] at hkv'
        rcases mem_btreeInsert _ _ _ _ hkv' with hin | heq
        · exact ih.2 kv hin
        · rw [heq]
          rfl
  | sweep c now hr ih =>
    constructor
    · intro kv hkv
      exact ih.1 kv hkv
    · intro kv hkv
      have hkv' : kv ∈ c.transfers.filter
          (fun x => decide (wsub now TX_DEDUPLICATION_WINDOW ≤ x.1.1)) := hkv
      exact ih.2 kv (List.mem_filter.mp hkv').1

/-- C1: the claim states that a transfer of item X succeeds only when the
caller is the owner of X or holds a usable approval from the owner of X.
The code instead authorizes against the request-resolved from account and
never consults the stored owner of X: with token 1 owned by principal 2
and no approvals at all, caller 4 (from defaulting to its own account)
transfers token 1 to principal 3 successfully.  This theorem evaluates
the code at that failing input. -/
theorem c1_transfer_ignores_token_owner :
    (listGet cOwned2.tokens 1).map (fun t => t.owner.owner) = some 2 ∧
    cOwned2.approvals = [] ∧
    (4 : Principal) ≠ 2 ∧
    (icrc7_transfer cOwned2 argsC1 4 1000).map Prod.fst = some (.ok 0) ∧
    (icrc7_transfer cOwned2 argsC1 4 1000).map
      (fun p => (listGet p.2.tokens 1).map (fun t => t.owner.owner)) = some (some 3) :=
  ⟨rfl, rfl, by decide, rfl, rfl⟩

/-- C5 counterexample: a reachable state whose transfer log stores a
non-canonical account: after minting token 1 and transferring it to a
destination given without a subaccount, the stored transfer record has
subaccount absent in its destination account. -/
theorem c5_stored_to_noncanonical :
    Reachable c5Final ∧
    c5Final.transfers.map (fun kv => kv.2.toAcc.subaccount) = [none] := by
  constructor
  · have h0 : Reachable (initCollection iargsC5) :=
      Reachable.init iargsC5 (by decide) (by decide)
    have h1 : Reachable c5Minted :=
      Reachable.mint (initCollection iargsC5) margsC5 1 (some []) h0
    exact Reachable.transferStep c5Minted targsC5 2 50 (.ok 0, c5Final) h1 rfl
  · rfl

/-- Witness for C5: the invariant applied to a concrete reachable state. -/
theorem c5_canonical_invariant_witness :
    (∀ kv ∈ (initCollection iargsC5).tokens, (kv.2.owner.subaccount).isSome = true) ∧
    (∀ kv ∈ (initCollection iargsC5).transfers, (kv.2.fromAcc.subaccount).isSome = true) :=
  c5_canonical_invariant (initCollection iargsC5) (Reachable.init iargsC5 (by decide) (by decide))

/-- C6 counterexample: an identical resubmission three minutes after the
recorded created_at, well within the 24h retention window, is answered
with TooOld, not Duplicate: the drift check precedes duplicate
detection. -/
theorem c6_retry_after_drift_tooold :
    (icrc7_transfer cOwned2 argsC6 2 1000000000000).map Prod.fst = some (.ok 0) ∧
    (icrc7_transfer c6After argsC6 2 1180000000000).map Prod.fst = some (.error .TooOld) ∧
    1180000000000 ≤ 1000000000000 + TX_DEDUPLICATION_WINDOW :=
  ⟨rfl, rfl, by decide⟩

/-- Witness for C6: a concrete resubmission at the same ledger time
yields Duplicate with the first id and an unchanged state. -/
theorem c6_duplicate_on_retry_witness :
    icrc7_transfer c6After argsC6 2 1000000000000 =
      some (.error (.Duplicate 0), c6After) :=
  c6_duplicate_on_retry cOwned2 argsC6 2 1000000000000 1000000000000 1000000000000 0 c6After
    rfl rfl (by decide) (by decide)

/-- Witness for C7: an atomic batch naming a missing token id fails with
the first per-item error and leaves the state unchanged. -/
theorem c7_atomic_first_error_witness :
    icrc7_transfer cOwned2 argsC7 2 1000 =
      some (.error ((argsC7.token_ids.filterMap
        (fun id => (transfer_single cOwned2 id (mkFrom argsC7 2) argsC7 2 1000 true).1)).headD
          .TemporarilyUnavailable), cOwned2) :=
  c7_atomic_first_error cOwned2 argsC7 2 1000 rfl (by decide) rfl rfl (by decide) rfl (by decide)

/-- Witness for C8: a non-atomic batch with one missing and one valid id
succeeds, moving exactly the valid token. -/
theorem c8_nonatomic_partial_witness :
    ∃ c', icrc7_transfer cOwned2 argsC8 2 1000 = some (.ok cOwned2.transfer_id_seq, c') ∧
      (∀ tid, listGet c'.tokens tid =
        if tid ∈ argsC8.token_ids ∧
            (transfer_single cOwned2 tid (mkFrom argsC8 2) argsC8 2 1000 true).1 = none
        then (listGet cOwned2.tokens tid).map
          (fun tok => { tok with owner := argsC8.toAcc.to_canonical })
        else listGet cOwned2.tokens tid) ∧
      c'.transfers = btreeInsert cOwned2.transfers
        ((mkTransfer argsC8 2 1000).created_at, cOwned2.transfer_id_seq)
        (mkTransfer argsC8 2 1000) ∧
      (mkTransfer argsC8 2 1000).token_ids = argsC8.token_ids :=
  c8_nonatomic_partial cOwned2 argsC8 2 1000 rfl (by decide) rfl rfl (by decide) rfl

/-- Witness for C3: an approve call on an existing token the caller does
not own returns Unauthorized listing that id. -/
theorem c3_approve_unauthorized_exact_witness :
    icrc7_approve cOwned2 argsC3w 5 0 =
      some (.error (.Unauthorized ([1].filter (fun id =>
        decide (((listGet cOwned2.tokens id).map (fun t => t.owner.owner)) ≠ some 5)))),
        cOwned2) :=
  c3_approve_unauthorized_exact cOwned2 argsC3w 5 0 [1] (by decide) rfl (by decide) (by decide)

/-- Witness for C4: a canonical destination equal to the resolved source
is rejected as a self transfer. -/
theorem c4_self_transfer_exact_witness :
    transfer_single cOwned2 1 (mkFrom argsC4w 2) argsC4w 2 5 true =
      (some (.GenericError 2 "can\x27t transfer to self"), cOwned2) :=
  c4_self_transfer_exact cOwned2 1 (mkFrom argsC4w 2) argsC4w 2 5 true (tok1 2) rfl
    (Or.inl rfl) rfl

/-- Witness for C2: the characterization applied at a concrete state and
a concrete now equal to the retention window. -/
theorem c2_gc_characterization_witness :
    (cC2.gc TX_DEDUPLICATION_WINDOW).transfers = cC2.transfers.filter
      (fun kv => decide (TX_DEDUPLICATION_WINDOW - TX_DEDUPLICATION_WINDOW ≤ kv.1.1)) ∧
    (cC2.gc TX_DEDUPLICATION_WINDOW).approvals = cC2.approvals.filter
      (fun kv => !(kv.2.expires_at.isSome &&
        decide (kv.2.expires_at.getD 0 < TX_DEDUPLICATION_WINDOW))) ∧
    (cC2.gc TX_DEDUPLICATION_WINDOW).gc TX_DEDUPLICATION_WINDOW =
      cC2.gc TX_DEDUPLICATION_WINDOW :=
  c2_gc_characterization cC2 TX_DEDUPLICATION_WINDOW (by decide) (by decide)

/-- Witness for C10: the frame condition of a concrete successful
transfer of token 1. -/
theorem c10_transfer_frame_witness :
    (0 : TransferID) = cOwned2.transfer_id_seq ∧
    c10After.transfer_id_seq = cOwned2.transfer_id_seq + 1 ∧
    c10After.transfers = btreeInsert cOwned2.transfers
      ((mkTransfer argsC10 2 1000).created_at, cOwned2.transfer_id_seq)
      (mkTransfer argsC10 2 1000) ∧
    c10After.approvals = cOwned2.approvals ∧
    c10After.approvals_by_principal = cOwned2.approvals_by_principal ∧
    c10After.approval_id_seq = cOwned2.approval_id_seq ∧
    c10After.name = cOwned2.name ∧ c10After.symbol = cOwned2.symbol ∧
    c10After.royalties = cOwned2.royalties ∧
    c10After.royalty_recipient = cOwned2.royalty_recipient ∧
    c10After.description = cOwned2.description ∧
    c10After.image = cOwned2.image ∧ c10After.supply_cap = cOwned2.supply_cap ∧
    c10After.authority = cOwned2.authority ∧
    (∀ t, t ∉ argsC10.token_ids → listGet c10After.tokens t = listGet cOwned2.tokens t) ∧
    (∀ t, (listGet c10After.tokens t).map (fun tok => (tok.id, tok.name, tok.image)) =
          (listGet cOwned2.tokens t).map (fun tok => (tok.id, tok.name, tok.image))) :=
  c10_transfer_frame cOwned2 argsC10 2 1000 0 c10After rfl

end Icrc7
